import Mathlib

/-!
Verification of the LZ4I container decoder (`src/lz4i_decoder.rs`) of the
pinion repository, as a shallow embedding in Lean 4.

The decoder reads a file, overlays a packed 14-byte header
(4-byte signature, big-endian u32 width, big-endian u32 height, u8 channels,
u8 colorspace) on the raw bytes via an unsafe pointer cast, computes
`width * height * channels` with `checked_mul` on `u32`, allocates a
zero-filled destination buffer of that size, calls the external C function
`LZ4_decompress_safe` (discarding its return value), and wraps the buffer as
an RGB8 or RGBA8 image via `ImageBuffer::from_raw`.

Modelling choices:
* bytes are `List Nat` (each entry `< 256` where it matters; hypotheses are
  added in theorems that need the bound);
* `usize` is 64-bit, `u32` arithmetic is `Nat` with explicit `2^32` bounds
  (`checked_mul` becomes a comparison against `2^32`);
* the `usize as i32` truncating cast is `toI32` below;
* the external `LZ4_decompress_safe` is an abstract `LZ4Primitive`: from the
  source bytes and the two `i32` arguments it yields a return code and the
  bytes it writes at the start of the destination buffer.  The Rust `Vec`
  keeps its length across the FFI call, so the post-call buffer is
  `overwrite dst written`;
* the unsafe cast `&*(raw_lz4i.as_ptr() as *const Lz4iHeader)` is modelled at
  field-access granularity: the signature comparison reads bytes 0..4, every
  other header field access and the payload slice `raw_lz4i[14..]` needs 14
  bytes.  An access beyond the end of the input is undefined behaviour,
  modelled by the outcome `DecodeOutcome.ub`.
-/

namespace Pinion

/-- A byte string. -/
abbrev Bytes := List Nat

/-- The four signature bytes `l`, `z`, `4`, `i` (line 47 of the source
compares `header.sig` against `b"lz4i"`). -/
def sigBytes : Bytes := [108, 122, 52, 105]

/-- `mem::size_of::<Lz4iHeader>()` for the `repr(packed)` header:
4 + 4 + 4 + 1 + 1 = 14. -/
def headerSize : Nat := 14

/-- Big-endian interpretation of four bytes as a 32-bit value
(`b0` is the most significant byte). -/
def u32_be (b0 b1 b2 b3 : Nat) : Nat :=
  ((b0 * 256 + b1) * 256 + b2) * 256 + b3

/-- The signature field of the header overlay: bytes 0..4 of the file. -/
def hdrSig (file : Bytes) : Bytes := file.take 4

/-- The decoded width: `header.width.to_be()`, i.e. the big-endian
interpretation of file bytes 4..8 (see `widthDecodedBE` below for the
host-endianness argument). -/
def hdrWidth (file : Bytes) : Nat :=
  u32_be (file.getD 4 0) (file.getD 5 0) (file.getD 6 0) (file.getD 7 0)

/-- The decoded height: big-endian interpretation of file bytes 8..12. -/
def hdrHeight (file : Bytes) : Nat :=
  u32_be (file.getD 8 0) (file.getD 9 0) (file.getD 10 0) (file.getD 11 0)

/-- The channels field of the header overlay: file byte 12. -/
def hdrChannels (file : Bytes) : Nat := file.getD 12 0

/-- The Rust truncating cast `n as i32` on an unsigned value: keep the low 32
bits and reinterpret them as a twos-complement signed 32-bit integer. -/
def toI32 (n : Nat) : Int :=
  if n % 2 ^ 32 < 2 ^ 31 then (n % 2 ^ 32 : Nat)
  else (n % 2 ^ 32 : Nat) - 2 ^ 32

/-- The destination `Vec<u8>` after a C call that wrote the bytes `w` at the
start of the buffer: the vector keeps its length, the prefix covered by `w`
is replaced, the rest keeps its previous contents. -/
def overwrite (dst w : Bytes) : Bytes :=
  w.take dst.length ++ dst.drop w.length

/-- Abstract model of the external C function `LZ4_decompress_safe`.
`retval src srcLenArg capArg` is the `i32` return code and
`output src srcLenArg capArg` the bytes written into the destination
buffer, both as functions of the source bytes and the two `i32`
arguments the Rust code passes. -/
structure LZ4Primitive where
  retval : Bytes → Int → Int → Int
  output : Bytes → Int → Int → Bytes

/-- Result of `lz4_decomp`: either the destination buffer, or the
`context("u32 overflow")` error raised when a `checked_mul` fails. -/
inductive DecompResult
  | ok (dst : Bytes)
  | sizeOverflow
deriving DecidableEq

/-- `lz4_decomp` (lines 24–42 of the source): decode width and height
big-endian, compute `width * height * channels` with `checked_mul` on `u32`
(failure is the "u32 overflow" error), allocate a zero-filled destination
buffer of that size, call `LZ4_decompress_safe` with the source length and
the capacity cast by `as i32`, ignore the return value and return the
buffer. -/
def lz4_decomp (prim : LZ4Primitive) (width height channels : Nat)
    (src : Bytes) : DecompResult :=
  if width * height < 2 ^ 32 then
    if width * height * channels < 2 ^ 32 then
      let dst_capacity := width * height * channels
      let dst := List.replicate dst_capacity 0
      -- return value of the C call is discarded by the source
      .ok (overwrite dst
        (prim.output src (toI32 src.length) (toI32 dst_capacity)))
    else .sizeOverflow
  else .sizeOverflow

/-- The `anyhow` error cases of the decoder, one constructor per error site:
`invalidSignature` is "Invalid LZ4I format." (line 47), `sizeOverflow` is
"u32 overflow" (lines 29 and 31), `unsupportedChannels c` is
"Unsupported LZ4I channels: c." (line 65), `bufOverflow` is
"buf overflow." (lines 58 and 62). -/
inductive DecodeError
  | invalidSignature
  | sizeOverflow
  | unsupportedChannels (c : Nat)
  | bufOverflow
deriving DecidableEq

/-- `DynamicImage` restricted to the two variants the decoder builds. -/
inductive DynamicImage
  | rgb8 (width height : Nat) (buf : Bytes)
  | rgba8 (width height : Nat) (buf : Bytes)
deriving DecidableEq

/-- Outcome of a decode call: a value, an error, or undefined behaviour
(an out-of-bounds read of a header field or of the payload slice). -/
inductive DecodeOutcome
  | ok (img : DynamicImage)
  | err (e : DecodeError)
  | ub
deriving DecidableEq

/-- The length check of `ImageBuffer::from_raw` from the image crate:
`CHANNEL_COUNT * width * height`, each multiplication checked in `usize`
(64-bit), must not overflow and must be at most the buffer length. -/
def fromRawOk (c width height len : Nat) : Bool :=
  decide (c * width < 2 ^ 64) && decide (c * width * height < 2 ^ 64) &&
    decide (c * width * height ≤ len)

/-- `read_lz4i` (lines 44–69 of the source) on the raw file bytes:
overlay the packed header on the input, compare the signature against
`b"lz4i"`, decode width and height big-endian, run `lz4_decomp` on the bytes
after the header, and wrap the buffer via `ImageBuffer::from_raw` as RGB8
when `channels == 3`, RGBA8 when `channels == 4`, failing with "Unsupported
LZ4I channels" otherwise.  There is no length check anywhere: the signature
comparison reads bytes 0..4, and past it every further field access and the
slice `raw_lz4i[header_size..]` requires 14 bytes, so shorter inputs reach
undefined behaviour (`ub`). -/
def read_lz4i (prim : LZ4Primitive) (file : Bytes) : DecodeOutcome :=
  if file.length < 4 then .ub
  else if hdrSig file ≠ sigBytes then .err .invalidSignature
  else if file.length < headerSize then .ub
  else
    let width := hdrWidth file
    let height := hdrHeight file
    let channels := hdrChannels file
    match lz4_decomp prim width height channels (file.drop headerSize) with
    | .sizeOverflow => .err .sizeOverflow
    | .ok decomped =>
      if channels = 3 then
        if fromRawOk 3 width height decomped.length then
          .ok (.rgb8 width height decomped)
        else .err .bufOverflow
      else if channels = 4 then
        if fromRawOk 4 width height decomped.length then
          .ok (.rgba8 width height decomped)
        else .err .bufOverflow
      else .err (.unsupportedChannels channels)

/-- Host byte order, for the endianness-independence claim. -/
inductive Endian
  | little
  | big

/-- `u32::swap_bytes` on a value below `2^32`. -/
def swapBytes32 (n : Nat) : Nat :=
  u32_be (n % 256) (n / 256 % 256) (n / 65536 % 256) (n / 16777216 % 256)

/-- Loading four in-memory bytes as a `u32` in the host byte order. -/
def loadU32 : Endian → Nat → Nat → Nat → Nat → Nat
  | .little, b0, b1, b2, b3 => b0 + 256 * b1 + 65536 * b2 + 16777216 * b3
  | .big, b0, b1, b2, b3 => u32_be b0 b1 b2 b3

/-- `u32::to_be` on the given host: identity on a big-endian host, byte swap
on a little-endian one. -/
def u32_to_be : Endian → Nat → Nat
  | .big, n => n
  | .little, n => swapBytes32 n

/-- The value `header.width.to_be()` computes on a host of byte order `e`:
the four field bytes (file bytes 4..8) are loaded natively, then `to_be`
is applied. -/
def widthDecodedBE (e : Endian) (file : Bytes) : Nat :=
  u32_to_be e
    (loadU32 e (file.getD 4 0) (file.getD 5 0) (file.getD 6 0) (file.getD 7 0))

/-- The value `header.height.to_be()` computes on a host of byte order `e`:
the four field bytes (file bytes 8..12) are loaded natively, then `to_be`
is applied. -/
def heightDecodedBE (e : Endian) (file : Bytes) : Nat :=
  u32_to_be e
    (loadU32 e (file.getD 8 0) (file.getD 9 0) (file.getD 10 0)
      (file.getD 11 0))

/-- Big-endian serialisation of a value below `2^32` into four bytes, most
significant first (used to build well-formed headers for the round-trip
claim). -/
def be32 (n : Nat) : Bytes :=
  [n / 16777216 % 256, n / 65536 % 256, n / 256 % 256, n % 256]

/-- A correctly-formed LZ4I container file: signature, big-endian width and
height, channels, zero colorspace byte, then the compressed payload. -/
def mkFile (width height channels : Nat) (payload : Bytes) : Bytes :=
  sigBytes ++ be32 width ++ be32 height ++ [channels, 0] ++ payload

/-- A primitive that reports failure (-1) and writes nothing. -/
def nullPrim : LZ4Primitive := ⟨fun _ _ _ => -1, fun _ _ _ => []⟩

/-- A primitive that copies its source into the destination (used as the
concrete decompressor of an identity compressor in witnesses). -/
def echoPrim : LZ4Primitive := ⟨fun s _ _ => s.length, fun s _ _ => s⟩

/-! Helper lemmas about the embedding. -/

theorem overwrite_length (dst w : Bytes) :
    (overwrite dst w).length = dst.length := by
  simp [overwrite]
  omega

theorem overwrite_exact (w : Bytes) (n : Nat) (h : w.length = n) :
    overwrite (List.replicate n 0) w = w := by
  subst h
  simp [overwrite]

theorem lz4_decomp_no_overflow (prim : LZ4Primitive) (w h c : Nat)
    (src : Bytes) (h1 : w * h < 2 ^ 32) (h2 : w * h * c < 2 ^ 32) :
    lz4_decomp prim w h c src =
      .ok (overwrite (List.replicate (w * h * c) 0)
        (prim.output src (toI32 src.length) (toI32 (w * h * c)))) := by
  unfold lz4_decomp
  rw [if_pos h1, if_pos h2]

theorem lz4_decomp_overflow (prim : LZ4Primitive) (w h c : Nat) (src : Bytes)
    (hov : 2 ^ 32 ≤ w * h ∨ 2 ^ 32 ≤ w * h * c) :
    lz4_decomp prim w h c src = .sizeOverflow := by
  unfold lz4_decomp
  by_cases h1 : w * h < 2 ^ 32
  · rw [if_pos h1, if_neg (by omega)]
  · rw [if_neg h1]

theorem read_lz4i_eq (prim : LZ4Primitive) (file : Bytes)
    (hlen : headerSize ≤ file.length) (hsig : hdrSig file = sigBytes) :
    read_lz4i prim file =
      match lz4_decomp prim (hdrWidth file) (hdrHeight file)
          (hdrChannels file) (file.drop headerSize) with
      | .sizeOverflow => .err .sizeOverflow
      | .ok decomped =>
        if hdrChannels file = 3 then
          if fromRawOk 3 (hdrWidth file) (hdrHeight file) decomped.length then
            .ok (.rgb8 (hdrWidth file) (hdrHeight file) decomped)
          else .err .bufOverflow
        else if hdrChannels file = 4 then
          if fromRawOk 4 (hdrWidth file) (hdrHeight file) decomped.length then
            .ok (.rgba8 (hdrWidth file) (hdrHeight file) decomped)
          else .err .bufOverflow
        else .err (.unsupportedChannels (hdrChannels file)) := by
  have h14 : (14 : Nat) ≤ file.length := hlen
  unfold read_lz4i
  rw [if_neg (by omega), if_neg (by simp [hsig]),
    if_neg (by simp only [headerSize]; omega)]

/-! Theorems settling the claims. -/

/-- C3: the payload size `width * height * channels` is computed with
`checked_mul` at both multiplication steps, and any header whose product
overflows `u32` makes the decoder fail with the size-overflow error
("u32 overflow"); in particular width = height = 0xFFFFFFFF, channels = 4
does, rather than producing a wrapped or truncated allocation. -/
theorem c3_size_overflow_checked :
    (∀ (prim : LZ4Primitive) (file : Bytes),
      headerSize ≤ file.length → hdrSig file = sigBytes →
      (2 ^ 32 ≤ hdrWidth file * hdrHeight file ∨
        2 ^ 32 ≤ hdrWidth file * hdrHeight file * hdrChannels file) →
      read_lz4i prim file = .err .sizeOverflow) ∧
    read_lz4i nullPrim (mkFile 4294967295 4294967295 4 []) =
      .err .sizeOverflow := by
  constructor
  · intro prim file hlen hsig hov
    rw [read_lz4i_eq prim file hlen hsig, lz4_decomp_overflow _ _ _ _ _ hov]
  · decide

/-- Witness for C3: a concrete 14-byte file with width = height =
0xFFFFFFFF and channels = 4 decodes to the size-overflow error. -/
theorem c3_size_overflow_checked_witness :
    read_lz4i nullPrim (mkFile 4294967295 4294967295 4 []) =
      .err .sizeOverflow :=
  c3_size_overflow_checked.1 nullPrim (mkFile 4294967295 4294967295 4 [])
    (by decide) (by decide) (by decide)

/-- C4: any input with at least 4 bytes whose first 4 bytes are not exactly
`l`, `z`, `4`, `i` decodes to the invalid-signature error
("Invalid LZ4I format."), regardless of the remaining content. -/
theorem c4_invalid_signature (prim : LZ4Primitive) (file : Bytes)
    (hlen : 4 ≤ file.length) (hsig : hdrSig file ≠ sigBytes) :
    read_lz4i prim file = .err .invalidSignature := by
  unfold read_lz4i
  rw [if_neg (by omega), if_pos hsig]

/-- Witness for C4: a 6-byte input whose fourth byte differs from `i`. -/
theorem c4_invalid_signature_witness :
    read_lz4i nullPrim [108, 122, 52, 106, 0, 0] = .err .invalidSignature :=
  c4_invalid_signature nullPrim [108, 122, 52, 106, 0, 0]
    (by decide) (by decide)

/-- C5: with a complete header, a good signature and a size product that
fits in `u32`, a channels byte that is neither 3 nor 4 decodes to the
unsupported-channels error ("Unsupported LZ4I channels"). -/
theorem c5_unsupported_channels (prim : LZ4Primitive) (file : Bytes)
    (hlen : headerSize ≤ file.length) (hsig : hdrSig file = sigBytes)
    (h1 : hdrWidth file * hdrHeight file < 2 ^ 32)
    (h2 : hdrWidth file * hdrHeight file * hdrChannels file < 2 ^ 32)
    (hc3 : hdrChannels file ≠ 3) (hc4 : hdrChannels file ≠ 4) :
    read_lz4i prim file = .err (.unsupportedChannels (hdrChannels file)) := by
  rw [read_lz4i_eq prim file hlen hsig,
    lz4_decomp_no_overflow prim _ _ _ _ h1 h2]
  simp [hc3, hc4]

/-- Witness for C5: a concrete 1×1 file with channels byte 5. -/
theorem c5_unsupported_channels_witness :
    read_lz4i nullPrim (mkFile 1 1 5 []) =
      .err (.unsupportedChannels 5) :=
  c5_unsupported_channels nullPrim (mkFile 1 1 5 []) (by decide) (by decide)
    (by decide) (by decide) (by decide) (by decide)

/-- C1 (code bug): the source discards the return value of
`LZ4_decompress_safe` (line 33–40: the result of the call is dropped and line 41
returns `Ok(dst)` unconditionally).  With a primitive that returns the
failure code -1 and writes nothing, a well-formed 1×1×3 container still
decodes to an image — the zero-filled destination buffer is treated as
valid pixel data, and no decompression-failure error exists in the code. -/
theorem c1_retval_ignored :
    nullPrim.retval [9, 9] (toI32 2) (toI32 3) = -1 ∧
    read_lz4i nullPrim (mkFile 1 1 3 [9, 9]) = .ok (.rgb8 1 1 [0, 0, 0]) := by
  constructor
  · decide
  · decide

/-- C2 (code bug): the source performs no length check at all before
overlaying the 14-byte packed header on the raw bytes (line 46) and slicing
`raw_lz4i[header_size..]` (line 54).  An input shorter than 14 bytes never
yields a truncated-input error: the empty input and the input consisting of
the bare signature reach out-of-bounds header-field reads (undefined
behaviour), and in general every short input either hits undefined
behaviour or fails the signature comparison. -/
theorem c2_no_truncation_check :
    read_lz4i nullPrim [] = .ub ∧
    read_lz4i nullPrim sigBytes = .ub ∧
    (∀ (prim : LZ4Primitive) (file : Bytes), file.length < headerSize →
      read_lz4i prim file = .ub ∨
        read_lz4i prim file = .err .invalidSignature) := by
  refine ⟨by decide, by decide, ?_⟩
  intro prim file hlen
  unfold read_lz4i
  by_cases h4 : file.length < 4
  · rw [if_pos h4]
    exact Or.inl rfl
  · rw [if_neg h4]
    by_cases hs : hdrSig file ≠ sigBytes
    · rw [if_pos hs]
      exact Or.inr rfl
    · rw [if_neg hs, if_pos hlen]
      exact Or.inl rfl

/-- Witness for C2: a 5-byte input starting with the signature reaches an
out-of-bounds header-field read. -/
theorem c2_no_truncation_check_witness :
    read_lz4i nullPrim [108, 122, 52, 105, 7] = .ub ∨
      read_lz4i nullPrim [108, 122, 52, 105, 7] = .err .invalidSignature :=
  c2_no_truncation_check.2.2 nullPrim [108, 122, 52, 105, 7] (by decide)

theorem getD_lt_256 (l : Bytes) (i : Nat) (hb : ∀ b ∈ l, b < 256) :
    l.getD i 0 < 256 := by
  rw [List.getD_eq_getElem?_getD]
  cases h : l[i]? with
  | none => simp
  | some b =>
    simp only [Option.getD_some]
    exact hb b (List.getElem?_mem h)

theorem hdrWidth_lt (file : Bytes) (hb : ∀ b ∈ file, b < 256) :
    hdrWidth file < 2 ^ 32 := by
  have h4 := getD_lt_256 file 4 hb
  have h5 := getD_lt_256 file 5 hb
  have h6 := getD_lt_256 file 6 hb
  have h7 := getD_lt_256 file 7 hb
  simp only [hdrWidth, u32_be]
  omega

theorem hdrHeight_lt (file : Bytes) (hb : ∀ b ∈ file, b < 256) :
    hdrHeight file < 2 ^ 32 := by
  have h8 := getD_lt_256 file 8 hb
  have h9 := getD_lt_256 file 9 hb
  have h10 := getD_lt_256 file 10 hb
  have h11 := getD_lt_256 file 11 hb
  simp only [hdrHeight, u32_be]
  omega

theorem fromRawOk_exact (c w h : Nat) (hwlt : w < 2 ^ 32) (hc : c ≤ 4)
    (hsz : w * h * c < 2 ^ 32) :
    fromRawOk c w h (w * h * c) = true := by
  have e : c * w * h = w * h * c := by ring
  simp only [fromRawOk, Bool.and_eq_true, decide_eq_true_eq]
  refine ⟨⟨?_, ?_⟩, ?_⟩
  · have hcw : c * w ≤ 4 * w := Nat.mul_le_mul_right w hc
    omega
  · rw [e]; omega
  · rw [e]

/-- C6: for a complete header (all bytes below 256) with good signature, a
size product that fits in `u32`, and a primitive whose output on the
payload has exactly `width * height * channels` bytes, decoding succeeds
with a buffer of exactly that many bytes, RGB8 when channels = 3 and RGBA8
when channels = 4. -/
theorem c6_valid_decode (prim : LZ4Primitive) (file : Bytes)
    (hb : ∀ b ∈ file, b < 256)
    (hlen : headerSize ≤ file.length) (hsig : hdrSig file = sigBytes)
    (h1 : hdrWidth file * hdrHeight file < 2 ^ 32)
    (h2 : hdrWidth file * hdrHeight file * hdrChannels file < 2 ^ 32)
    (hp : (prim.output (file.drop headerSize)
        (toI32 (file.drop headerSize).length)
        (toI32 (hdrWidth file * hdrHeight file * hdrChannels file))).length =
      hdrWidth file * hdrHeight file * hdrChannels file) :
    ∃ buf : Bytes,
      buf.length = hdrWidth file * hdrHeight file * hdrChannels file ∧
      (hdrChannels file = 3 →
        read_lz4i prim file =
          .ok (.rgb8 (hdrWidth file) (hdrHeight file) buf)) ∧
      (hdrChannels file = 4 →
        read_lz4i prim file =
          .ok (.rgba8 (hdrWidth file) (hdrHeight file) buf)) := by
  have hw := hdrWidth_lt file hb
  refine ⟨prim.output (file.drop headerSize)
    (toI32 (file.drop headerSize).length)
    (toI32 (hdrWidth file * hdrHeight file * hdrChannels file)), hp, ?_, ?_⟩
  all_goals intro hc
  all_goals rw [read_lz4i_eq prim file hlen hsig,
    lz4_decomp_no_overflow prim _ _ _ _ h1 h2,
    overwrite_exact _ _ hp]
  all_goals simp only []
  · rw [if_pos hc, if_pos]
    rw [hp, hc]
    rw [hc] at h2
    exact fromRawOk_exact 3 _ _ hw (by omega) h2
  · rw [if_neg (by omega), if_pos hc, if_pos]
    rw [hp, hc]
    rw [hc] at h2
    exact fromRawOk_exact 4 _ _ hw (by omega) h2

/-- Witness for C6: a 1×1 RGB container whose payload the echo primitive
expands to the 3 bytes 5, 6, 7. -/
theorem c6_valid_decode_witness :
    ∃ buf : Bytes,
      buf.length =
        hdrWidth (mkFile 1 1 3 [5, 6, 7]) *
          hdrHeight (mkFile 1 1 3 [5, 6, 7]) *
          hdrChannels (mkFile 1 1 3 [5, 6, 7]) ∧
      (hdrChannels (mkFile 1 1 3 [5, 6, 7]) = 3 →
        read_lz4i echoPrim (mkFile 1 1 3 [5, 6, 7]) =
          .ok (.rgb8 (hdrWidth (mkFile 1 1 3 [5, 6, 7]))
            (hdrHeight (mkFile 1 1 3 [5, 6, 7])) buf)) ∧
      (hdrChannels (mkFile 1 1 3 [5, 6, 7]) = 4 →
        read_lz4i echoPrim (mkFile 1 1 3 [5, 6, 7]) =
          .ok (.rgba8 (hdrWidth (mkFile 1 1 3 [5, 6, 7]))
            (hdrHeight (mkFile 1 1 3 [5, 6, 7])) buf)) :=
  c6_valid_decode echoPrim (mkFile 1 1 3 [5, 6, 7]) (by decide) (by decide)
    (by decide) (by decide) (by decide) (by decide)

theorem u32_to_be_loadU32 (e : Endian) (b0 b1 b2 b3 : Nat)
    (h0 : b0 < 256) (h1 : b1 < 256) (h2 : b2 < 256) (h3 : b3 < 256) :
    u32_to_be e (loadU32 e b0 b1 b2 b3) = u32_be b0 b1 b2 b3 := by
  cases e with
  | big => rfl
  | little =>
    have hb0 : (b0 + 256 * b1 + 65536 * b2 + 16777216 * b3) % 256 = b0 := by
      omega
    have hb1 :
        (b0 + 256 * b1 + 65536 * b2 + 16777216 * b3) / 256 % 256 = b1 := by
      omega
    have hb2 :
        (b0 + 256 * b1 + 65536 * b2 + 16777216 * b3) / 65536 % 256 = b2 := by
      omega
    have hb3 :
        (b0 + 256 * b1 + 65536 * b2 + 16777216 * b3) / 16777216 % 256 =
          b3 := by
      omega
    simp only [u32_to_be, loadU32, swapBytes32, hb0, hb1, hb2, hb3]

theorem u32_be_msb (b0 b1 b2 b3 : Nat)
    (h1 : b1 < 256) (h2 : b2 < 256) (h3 : b3 < 256) :
    u32_be b0 b1 b2 b3 / 2 ^ 24 = b0 := by
  simp only [u32_be]
  omega

/-- C7: width and height are decoded as 32-bit unsigned big-endian values
on either host byte order: loading the field bytes natively and applying
`to_be` equals the big-endian interpretation of the bytes at offsets 4..8
(resp. 8..12), whose most significant byte is the file byte at offset 4
(resp. 8). -/
theorem c7_big_endian_fields (e : Endian) (file : Bytes)
    (hb : ∀ b ∈ file, b < 256) :
    (widthDecodedBE e file = hdrWidth file ∧
      heightDecodedBE e file = hdrHeight file) ∧
    hdrWidth file / 2 ^ 24 = file.getD 4 0 ∧
    hdrHeight file / 2 ^ 24 = file.getD 8 0 := by
  refine ⟨⟨?_, ?_⟩, ?_, ?_⟩
  · exact u32_to_be_loadU32 e _ _ _ _ (getD_lt_256 file 4 hb)
      (getD_lt_256 file 5 hb) (getD_lt_256 file 6 hb) (getD_lt_256 file 7 hb)
  · exact u32_to_be_loadU32 e _ _ _ _ (getD_lt_256 file 8 hb)
      (getD_lt_256 file 9 hb) (getD_lt_256 file 10 hb)
      (getD_lt_256 file 11 hb)
  · exact u32_be_msb _ _ _ _ (getD_lt_256 file 5 hb)
      (getD_lt_256 file 6 hb) (getD_lt_256 file 7 hb)
  · exact u32_be_msb _ _ _ _ (getD_lt_256 file 9 hb)
      (getD_lt_256 file 10 hb) (getD_lt_256 file 11 hb)

/-- Witness for C7: on a little-endian host, a concrete file with width 258
and height 516. -/
theorem c7_big_endian_fields_witness :
    (widthDecodedBE .little (mkFile 258 516 3 []) =
        hdrWidth (mkFile 258 516 3 []) ∧
      heightDecodedBE .little (mkFile 258 516 3 []) =
        hdrHeight (mkFile 258 516 3 [])) ∧
    hdrWidth (mkFile 258 516 3 []) / 2 ^ 24 =
      (mkFile 258 516 3 []).getD 4 0 ∧
    hdrHeight (mkFile 258 516 3 []) / 2 ^ 24 =
      (mkFile 258 516 3 []).getD 8 0 :=
  c7_big_endian_fields .little (mkFile 258 516 3 []) (by decide)

/-! Helper lemmas about `mkFile` for the round-trip claim. -/

theorem hdrSig_mkFile (w h c : Nat) (p : Bytes) :
    hdrSig (mkFile w h c p) = sigBytes := rfl

theorem length_mkFile (w h c : Nat) (p : Bytes) :
    (mkFile w h c p).length = 14 + p.length := by
  simp [mkFile, sigBytes, be32]
  omega

theorem drop_mkFile (w h c : Nat) (p : Bytes) :
    (mkFile w h c p).drop headerSize = p := rfl

theorem hdrChannels_mkFile (w h c : Nat) (p : Bytes) :
    hdrChannels (mkFile w h c p) = c := rfl

theorem hdrWidth_mkFile (w h c : Nat) (p : Bytes) (hw : w < 2 ^ 32) :
    hdrWidth (mkFile w h c p) = w := by
  have e4 : (mkFile w h c p).getD 4 0 = w / 16777216 % 256 := rfl
  have e5 : (mkFile w h c p).getD 5 0 = w / 65536 % 256 := rfl
  have e6 : (mkFile w h c p).getD 6 0 = w / 256 % 256 := rfl
  have e7 : (mkFile w h c p).getD 7 0 = w % 256 := rfl
  simp only [hdrWidth, e4, e5, e6, e7, u32_be]
  omega

theorem hdrHeight_mkFile (w h c : Nat) (p : Bytes) (hh : h < 2 ^ 32) :
    hdrHeight (mkFile w h c p) = h := by
  have e8 : (mkFile w h c p).getD 8 0 = h / 16777216 % 256 := rfl
  have e9 : (mkFile w h c p).getD 9 0 = h / 65536 % 256 := rfl
  have e10 : (mkFile w h c p).getD 10 0 = h / 256 % 256 := rfl
  have e11 : (mkFile w h c p).getD 11 0 = h % 256 := rfl
  simp only [hdrHeight, e8, e9, e10, e11, u32_be]
  omega

/-- C8: round trip — compressing an RGB buffer of width W and height H with
a block primitive that decompresses it back exactly, prepending a
correctly-formed header (signature, big-endian W and H, channels 3), and
decoding reproduces the original buffer byte for byte. -/
theorem c8_round_trip (prim : LZ4Primitive) (compress : Bytes → Bytes)
    (buf : Bytes) (w h : Nat) (hw : w < 2 ^ 32) (hh : h < 2 ^ 32)
    (hbuf : buf.length = w * h * 3) (hsize : w * h * 3 < 2 ^ 32)
    (hprim : prim.output (compress buf) (toI32 (compress buf).length)
        (toI32 (w * h * 3)) = buf) :
    read_lz4i prim (mkFile w h 3 (compress buf)) = .ok (.rgb8 w h buf) := by
  have hlen : headerSize ≤ (mkFile w h 3 (compress buf)).length := by
    rw [length_mkFile]
    simp only [headerSize]
    omega
  have hle : w * h * 1 ≤ w * h * 3 := Nat.mul_le_mul_left _ (by norm_num)
  have h1 : w * h < 2 ^ 32 := by omega
  have hfr : fromRawOk 3 w h buf.length = true := by
    rw [hbuf]
    exact fromRawOk_exact 3 w h hw (by norm_num) hsize
  rw [read_lz4i_eq prim _ hlen (hdrSig_mkFile w h 3 (compress buf)),
    hdrWidth_mkFile w h 3 _ hw, hdrHeight_mkFile w h 3 _ hh,
    hdrChannels_mkFile w h 3 _, drop_mkFile,
    lz4_decomp_no_overflow prim w h 3 _ h1 hsize, hprim,
    overwrite_exact buf _ hbuf]
  simp [hfr]

/-- Witness for C8: the identity compressor with the echoing primitive on
the 1×1 RGB buffer [1, 2, 3]. -/
theorem c8_round_trip_witness :
    read_lz4i echoPrim (mkFile 1 1 3 ((fun b => b) [1, 2, 3])) =
      .ok (.rgb8 1 1 [1, 2, 3]) :=
  c8_round_trip echoPrim (fun b => b) [1, 2, 3] 1 1 (by decide) (by decide)
    (by decide) (by decide) (by decide)

/-- C9: the size computation runs entirely in `u32`: every header whose
product is at least 2^32 is rejected as an overflow even when the product
fits the 64-bit `usize`, and a returned decompression buffer never exceeds
2^32 - 1 bytes. -/
theorem c9_u32_size_limit :
    (∀ (prim : LZ4Primitive) (w h c : Nat) (src : Bytes),
      2 ^ 32 ≤ w * h * c → w * h * c < 2 ^ 64 →
      lz4_decomp prim w h c src = .sizeOverflow) ∧
    (∀ (prim : LZ4Primitive) (w h c : Nat) (src dst : Bytes),
      lz4_decomp prim w h c src = .ok dst → dst.length ≤ 2 ^ 32 - 1) := by
  constructor
  · intro prim w h c src hov _
    exact lz4_decomp_overflow prim w h c src (Or.inr hov)
  · intro prim w h c src dst hok
    by_cases h1 : w * h < 2 ^ 32
    · by_cases h2 : w * h * c < 2 ^ 32
      · rw [lz4_decomp_no_overflow prim w h c src h1 h2] at hok
        injection hok with hdst
        subst hdst
        rw [overwrite_length]
        simp only [List.length_replicate]
        omega
      · rw [lz4_decomp_overflow prim w h c src (Or.inr (by omega))] at hok
        simp at hok
    · rw [lz4_decomp_overflow prim w h c src (Or.inl (by omega))] at hok
      simp at hok

/-- Witness for C9: a 2^33-byte product is rejected, and a concrete
successful 1×1×3 decompression yields a 3-byte buffer within the limit. -/
theorem c9_u32_size_limit_witness :
    lz4_decomp nullPrim 65536 65536 2 [] = .sizeOverflow ∧
    ([0, 0, 0] : Bytes).length ≤ 2 ^ 32 - 1 :=
  ⟨c9_u32_size_limit.1 nullPrim 65536 65536 2 [] (by decide) (by decide),
    c9_u32_size_limit.2 nullPrim 1 1 3 [] [0, 0, 0] (by decide)⟩

/-- C10: the source length and destination capacity are passed to the
primitive through truncating `as i32` casts: `lz4_decomp` hands the
primitive exactly `toI32` of both values, and every value in
[2^31, 2^32) crosses the boundary as its negative twos-complement
reinterpretation. -/
theorem c10_truncating_i32_casts :
    (∀ n : Nat, 2 ^ 31 ≤ n → n < 2 ^ 32 →
      toI32 n = (n : Int) - 2 ^ 32 ∧ toI32 n < 0) ∧
    (∀ (prim : LZ4Primitive) (w h c : Nat) (src : Bytes),
      w * h < 2 ^ 32 → w * h * c < 2 ^ 32 →
      lz4_decomp prim w h c src =
        .ok (overwrite (List.replicate (w * h * c) 0)
          (prim.output src (toI32 src.length) (toI32 (w * h * c))))) := by
  constructor
  · intro n hlo hhi
    have hmod : n % 2 ^ 32 = n := Nat.mod_eq_of_lt hhi
    unfold toI32
    rw [hmod, if_neg (by omega)]
    exact ⟨rfl, by omega⟩
  · intro prim w h c src h1 h2
    exact lz4_decomp_no_overflow prim w h c src h1 h2

/-- Witness for C10: 3221225472 = 0xC0000000 crosses the boundary as
-1073741824, and a concrete small call passes the cast arguments. -/
theorem c10_truncating_i32_casts_witness :
    (toI32 3221225472 = (3221225472 : Int) - 4294967296 ∧
      toI32 3221225472 < 0) ∧
    lz4_decomp nullPrim 1 1 3 [] =
      .ok (overwrite (List.replicate (1 * 1 * 3) 0)
        (nullPrim.output [] (toI32 (List.length ([] : Bytes)))
          (toI32 (1 * 1 * 3)))) :=
  ⟨c10_truncating_i32_casts.1 3221225472 (by decide) (by decide),
    c10_truncating_i32_casts.2 nullPrim 1 1 3 [] (by decide) (by decide)⟩

end Pinion
